import Mathlib

set_option maxRecDepth 4000

/-!
Shallow embedding of `src/main.rs` of the get-config utility.

The program is a linear pipeline: parse a JSON file into a map from key
names to value descriptors (`parse_config`), split the requested key list
on commas and resolve each key (the loop of `main`, embedded as `resolveLoop`
and `runMain`), resolve a descriptor either to its literal value or to the
captured stdout of a child process (`get_config_value`), and serialize the
resolved map either as JSON (`output_json`) or as `key=value` lines
(`output_dotenv`).

External collaborators are modelled explicitly: the JSON text already
parsed into a `Json` tree (the serde_json reader), the behaviour of
`std::process::Command::output` as a `World` function from program name
and arguments to a process result, and UTF-8 decoding (`String::from_utf8`
and `String::from_utf8_lossy`) as executable byte-level functions.
-/

namespace GetConfig

/-- JSON values: the model of the structured text that serde_json produces
from the descriptor file.  Numbers are modelled as integers; any number is
a shape error for this program, so their exact arithmetic never matters. -/
inductive Json where
  | null : Json
  | bool (b : Bool) : Json
  | num (n : Int) : Json
  | str (s : String) : Json
  | arr (elems : List Json) : Json
  | obj (fields : List (String × Json)) : Json

/-- The `Source` enum of `main.rs` (serde tag values `cmd` / `value`). -/
inductive Source where
  | cmd : Source
  | value : Source
deriving DecidableEq

/-- The `ConfigValueSource` struct of `main.rs`: a `source` tag plus three
optional fields.  As in the Rust struct, nothing ties the optional fields
to the tag. -/
structure ConfigValueSource where
  source : Source
  exec : Option String
  args : Option (List String)
  value : Option String
deriving DecidableEq

/-- Insertion into an association list with the semantics of
`HashMap::insert`: replace the binding if the key is present, otherwise
add it. -/
def hmInsert {α : Type} : List (String × α) → String → α → List (String × α)
  | [], k, v => [(k, v)]
  | (k', v') :: tl, k, v =>
    if k' = k then (k, v) :: tl else (k', v') :: hmInsert tl k v

/-- Evaluates to true exactly on `Except.ok` results. -/
def isOkE {ε α : Type} : Except ε α → Bool
  | Except.ok _ => true
  | Except.error _ => false

/-- Deserialization of the `Source` enum (serde, `rename_all = camelCase`):
only the strings `cmd` and `value` are accepted. -/
def parseSource (j : Json) : Except String Source :=
  match j with
  | Json.str s =>
    if s = "cmd" then Except.ok Source.cmd
    else if s = "value" then Except.ok Source.value
    else Except.error ("unknown variant")
  | _ => Except.error ("invalid type: expected a string")

/-- Deserialization of a JSON value into a Rust `String` field. -/
def parseStringJson (j : Json) : Except String String :=
  match j with
  | Json.str s => Except.ok s
  | _ => Except.error ("invalid type: expected a string")

/-- Deserialization of a JSON value into a Rust `Vec<String>` field. -/
def parseStringList : List Json → Except String (List String)
  | [] => Except.ok []
  | j :: tl =>
    match parseStringJson j, parseStringList tl with
    | Except.ok s, Except.ok rest => Except.ok (s :: rest)
    | Except.error e, _ => Except.error e
    | _, Except.error e => Except.error e

/-- Deserialization of a JSON value into `Vec<String>`. -/
def parseStringListJson (j : Json) : Except String (List String) :=
  match j with
  | Json.arr xs => parseStringList xs
  | _ => Except.error ("invalid type: expected a sequence")

/-- True of the JSON value `null`. -/
def isNullJson : Json → Bool
  | Json.null => true
  | _ => false

/-- Reading an `Option` field of a serde struct: an absent field and an
explicit `null` both give `none`; a present non-null value must
deserialize with `p`. -/
def parseField {α : Type} (fields : List (String × Json)) (name : String)
    (p : Json → Except String α) : Except String (Option α) :=
  match fields.lookup name with
  | none => Except.ok none
  | some j =>
    if isNullJson j then Except.ok none
    else
      match p j with
      | Except.ok a => Except.ok (some a)
      | Except.error e => Except.error e

/-- Number of occurrences of a field name in a JSON object. -/
def countKey (fields : List (String × Json)) (k : String) : Nat :=
  (fields.filter (fun kv => kv.1 = k)).length

/-- True when a declared field of the struct occurs more than once in
the object (serde rejects duplicates of known fields; unknown fields are
ignored however often they occur). -/
def dupKnownField (fields : List (String × Json)) : Bool :=
  decide (2 ≤ countKey fields ("source")) ||
  decide (2 ≤ countKey fields ("exec")) ||
  decide (2 ≤ countKey fields ("args")) ||
  decide (2 ≤ countKey fields ("value"))

/-- Deserialization of one `ConfigValueSource` (derived serde impl):
the value must be an object, `source` is required and must be a
recognized tag, and each optional field, when present and non-null, must
have the declared type.  Nothing requires `exec` when the tag is `cmd`. -/
def parseConfigValueSource (j : Json) : Except String ConfigValueSource :=
  match j with
  | Json.obj fields =>
    if dupKnownField fields then Except.error ("duplicate field")
    else
      match fields.lookup ("source") with
      | none => Except.error ("missing field source")
      | some js =>
        match parseSource js, parseField fields ("exec") parseStringJson,
            parseField fields ("args") parseStringListJson,
            parseField fields ("value") parseStringJson with
        | Except.ok src, Except.ok e, Except.ok a, Except.ok v =>
          Except.ok ⟨src, e, a, v⟩
        | Except.error e, _, _, _ => Except.error e
        | _, Except.error e, _, _ => Except.error e
        | _, _, Except.error e, _ => Except.error e
        | _, _, _, Except.error e => Except.error e
  | _ => Except.error ("invalid type: expected an object")

/-- Folding the entries of the top-level object into a `HashMap`, as the serde
map deserializer does: the value of each entry is deserialized and inserted;
the first failure aborts. -/
def parseConfigEntries :
    List (String × Json) → List (String × ConfigValueSource) →
    Except String (List (String × ConfigValueSource))
  | [], acc => Except.ok acc
  | (k, v) :: tl, acc =>
    match parseConfigValueSource v with
    | Except.ok c => parseConfigEntries tl (hmInsert acc k c)
    | Except.error e => Except.error e

/-- The `parse_config` function of `main.rs`, from the point where the
bytes of the file have been parsed into a JSON tree: deserialize a
`HashMap<String, ConfigValueSource>`. -/
def parse_config (j : Json) : Except String (List (String × ConfigValueSource)) :=
  match j with
  | Json.obj fields => parseConfigEntries fields []
  | _ => Except.error ("invalid type: expected a map")

/-- True of a UTF-8 continuation byte (high bits `10`). -/
def isCont (b : Nat) : Bool := 128 ≤ b && b < 192

/-- One step of UTF-8 decoding, given the first byte and the remaining
bytes.  Returns the decoded scalar value (or `none` for an invalid
sequence) together with the number of bytes of the tail that belong to
the sequence (for an invalid sequence, the length of its maximal valid
prefix beyond the first byte, as in the replacement behaviour of
`String::from_utf8_lossy`).  Strictness matches `String::from_utf8`:
overlong encodings, surrogates and values above 0x10FFFF are invalid. -/
def utf8Step (b : Nat) (rest : List Nat) : Option Char × Nat :=
  if b < 128 then (some (Char.ofNat b), 0)
  else if b < 194 then (none, 0)
  else if b < 224 then
    match rest with
    | b1 :: _ =>
      if isCont b1 then (some (Char.ofNat ((b - 192) * 64 + (b1 - 128))), 1)
      else (none, 0)
    | [] => (none, 0)
  else if b < 240 then
    let lo := if b = 224 then 160 else 128
    let hi := if b = 237 then 160 else 192
    match rest with
    | b1 :: rest1 =>
      if lo ≤ b1 && b1 < hi then
        match rest1 with
        | b2 :: _ =>
          if isCont b2 then
            (some (Char.ofNat ((b - 224) * 4096 + (b1 - 128) * 64 + (b2 - 128))), 2)
          else (none, 1)
        | [] => (none, 1)
      else (none, 0)
    | [] => (none, 0)
  else if b < 245 then
    let lo := if b = 240 then 144 else 128
    let hi := if b = 244 then 144 else 192
    match rest with
    | b1 :: rest1 =>
      if lo ≤ b1 && b1 < hi then
        match rest1 with
        | b2 :: rest2 =>
          if isCont b2 then
            match rest2 with
            | b3 :: _ =>
              if isCont b3 then
                (some (Char.ofNat
                  ((b - 240) * 262144 + (b1 - 128) * 4096 + (b2 - 128) * 64 + (b3 - 128))), 3)
              else (none, 2)
            | [] => (none, 2)
          else (none, 1)
        | [] => (none, 1)
      else (none, 0)
    | [] => (none, 0)
  else (none, 0)

/-- Strict UTF-8 decoding loop.  The fuel argument bounds the number of
decoded scalars; since every step consumes at least one byte, fuel equal
to the byte count always suffices. -/
def utf8DecodeLoop : Nat → List Nat → Option (List Char)
  | _, [] => some []
  | 0, _ :: _ => none
  | fuel + 1, b :: rest =>
    match utf8Step b rest with
    | (some c, k) => (utf8DecodeLoop fuel (rest.drop k)).map (fun cs => c :: cs)
    | (none, _) => none

/-- The model of `String::from_utf8`: the bytes decoded as text, or
`none` when they are not valid UTF-8. -/
def utf8Decode (bytes : List Nat) : Option String :=
  (utf8DecodeLoop bytes.length bytes).map (fun cs => ⟨cs⟩)

/-- Lossy UTF-8 decoding loop: each maximal invalid subpart becomes one
U+FFFD replacement character. -/
def utf8LossyLoop : Nat → List Nat → List Char
  | _, [] => []
  | 0, _ :: _ => []
  | fuel + 1, b :: rest =>
    match utf8Step b rest with
    | (some c, k) => c :: utf8LossyLoop fuel (rest.drop k)
    | (none, k) => Char.ofNat 65533 :: utf8LossyLoop fuel (rest.drop k)

/-- The model of `String::from_utf8_lossy`. -/
def utf8Lossy (bytes : List Nat) : String :=
  ⟨utf8LossyLoop bytes.length bytes⟩

/-- Result of `std::process::Command::output` for a process that could be
spawned: exit status and the captured stdout/stderr byte streams. -/
structure ProcOutput where
  status : Int
  stdout : List Nat
  stderr : List Nat

/-- The behaviour of the operating system when asked to run a program
with an argument list: either a process result, or the error (`ExecError`)
with which spawning failed. -/
def World : Type := String → List String → Except String ProcOutput

/-- Result of a fallible computation in `main.rs`: a value, an error
propagated as `Box<dyn Error>` (identified by its message text), or a
Rust panic. -/
inductive Outcome (α : Type) where
  | ok (a : α) : Outcome α
  | err (msg : String) : Outcome α
  | panicked : Outcome α
deriving DecidableEq

/-- The `get_config_value` function of `main.rs`.  For a `Cmd` descriptor
it unwraps `exec` (panicking when it is `None`), runs the program via the
`world`, fails with the captured stderr text when stderr is non-empty
(the exit status is never inspected), and otherwise decodes stdout
strictly as UTF-8.  For a `Value` descriptor it returns the literal value
or the empty string, without consulting the `world` at all. -/
def get_config_value (world : World) (config : ConfigValueSource) : Outcome String :=
  match config.source with
  | Source.cmd =>
    match config.exec with
    | none => Outcome.panicked
    | some exe =>
      match world exe (config.args.getD []) with
      | Except.error e => Outcome.err e
      | Except.ok out =>
        if out.stderr.isEmpty then
          match utf8Decode out.stdout with
          | some s => Outcome.ok s
          | none => Outcome.err ("invalid utf-8 sequence in command output")
        else Outcome.err ("Error running command: " ++ utf8Lossy out.stderr)
  | Source.value => Outcome.ok (config.value.getD "")

/-- Splitting a character list at every occurrence of a separator
character, with the semantics of the Rust `str::split`: the result always
has one more piece than there are separators, so the empty input yields
one empty piece. -/
def splitOnChar (sep : Char) : List Char → List (List Char)
  | [] => [[]]
  | c :: rest =>
    match splitOnChar sep rest with
    | h :: t => if c = sep then [] :: h :: t else (c :: h) :: t
    | [] => [[]]

/-- The split of the key selector: `key_list.split(",")` of `main.rs`. -/
def splitKeys (s : String) : List String :=
  (splitOnChar (',') s.data).map (fun l => ⟨l⟩)

/-- ASCII apostrophe, used in the `KeyNotFound` message text. -/
def sq : String := String.singleton (Char.ofNat 39)

/-- The error message of `main.rs` for a missing key: the word Key, the
offending key in single quotes, then not found in source config. -/
def keyNotFoundMsg (k : String) : String :=
  "Key " ++ sq ++ k ++ sq ++ " not found in source config"

/-- The loop of `main`: look each requested key up in the parsed mapping,
resolve it, and insert the resolved value into the result map; a missing
key aborts with the `KeyNotFound` message, and resolver errors and panics
propagate. -/
def resolveLoop (world : World) (input : List (String × ConfigValueSource)) :
    List String → List (String × String) → Outcome (List (String × String))
  | [], acc => Outcome.ok acc
  | k :: ks, acc =>
    match List.lookup k input with
    | some config =>
      match get_config_value world config with
      | Outcome.ok v => resolveLoop world input ks (hmInsert acc k v)
      | Outcome.err e => Outcome.err e
      | Outcome.panicked => Outcome.panicked
    | none => Outcome.err (keyNotFoundMsg k)

/-- One `key=value` line of the dotenv output: the key, an equals sign,
the value, then a newline, exactly as the format string in `main.rs`
splices them. -/
def dotenvLine (kv : String × String) : String :=
  kv.1 ++ "=" ++ kv.2 ++ "\n"

/-- The text built by `output_dotenv` for a given iteration sequence of
the resolved map: a line is pushed for every entry, in order. -/
def dotenvText (map : List (String × String)) : String :=
  map.foldl (fun acc kv => acc ++ dotenvLine kv) ""

/-- The `output_dotenv` function of `main.rs`. -/
def output_dotenv (map : List (String × String)) : Except String String :=
  Except.ok (dotenvText map)

/-- ASCII left brace. -/
def lbrace : Char := Char.ofNat 123

/-- ASCII right brace. -/
def rbrace : Char := Char.ofNat 125

/-- ASCII double quote. -/
def dquote : Char := Char.ofNat 34

/-- Lowercase hexadecimal digit for a value below 16. -/
def hexDigitChar (n : Nat) : Char :=
  if n < 10 then Char.ofNat (48 + n) else Char.ofNat (87 + n)

/-- The serde_json escaping of one character inside a JSON string literal:
quote and backslash get a backslash escape, the control characters with
short escapes use them, the remaining control characters use `\u00xx`,
and every other character (ASCII or not) is emitted verbatim. -/
def escapeChar (c : Char) : List Char :=
  if c = dquote then ['\\', dquote]
  else if c = '\\' then ['\\', '\\']
  else if c.toNat = 8 then ['\\', 'b']
  else if c.toNat = 9 then ['\\', 't']
  else if c.toNat = 10 then ['\\', 'n']
  else if c.toNat = 12 then ['\\', 'f']
  else if c.toNat = 13 then ['\\', 'r']
  else if c.toNat < 32 then
    ['\\', 'u', '0', '0', hexDigitChar (c.toNat / 16), hexDigitChar (c.toNat % 16)]
  else [c]

/-- The serde_json escaping of a whole string body. -/
def escapeList : List Char → List Char
  | [] => []
  | c :: cs => escapeChar c ++ escapeList cs

/-- One `"key":"value"` member of the serialized JSON object. -/
def entryChars (kv : String × String) : List Char :=
  dquote :: (escapeList kv.1.data ++
    (dquote :: ':' :: dquote :: (escapeList kv.2.data ++ [dquote])))

/-- The comma-separated members of the serialized JSON object. -/
def entriesChars : List (String × String) → List Char
  | [] => []
  | [kv] => entryChars kv
  | kv :: tl => entryChars kv ++ ',' :: entriesChars tl

/-- The compact JSON object text that the serde_json `to_string` produces
for a string-to-string map, in its iteration order. -/
def jsonChars (map : List (String × String)) : List Char :=
  lbrace :: (entriesChars map ++ [rbrace])

/-- The `output_json` function of `main.rs`: serde_json `to_string` of the
resolved map, which cannot fail for a map of plain strings. -/
def output_json (map : List (String × String)) : Except String String :=
  Except.ok ⟨jsonChars map⟩

/-- The format dispatch of `main`: `"json"` selects the JSON serializer
and everything else, `"dotenv"` included, selects the dotenv
serializer. -/
def formatOutput (format : String) (map : List (String × String)) :
    Except String String :=
  if format = "json" then output_json map
  else if format = "dotenv" then output_dotenv map
  else output_dotenv map

/-- The `main` function of `main.rs`, from the point where the descriptor
file has been parsed: split the key list, resolve every key, then format
the resolved map and print it.  `iter` supplies the iteration order in
which the `HashMap` hands its entries to the formatter; it is chosen by
the randomly seeded hash state of the runtime, not by the program. -/
def runMain (world : World) (iter : List (String × String) → List (String × String))
    (input : List (String × ConfigValueSource)) (key_list format : String) :
    Outcome String :=
  match resolveLoop world input (splitKeys key_list) [] with
  | Outcome.ok m =>
    match formatOutput format (iter m) with
    | Except.ok out => Outcome.ok out
    | Except.error e => Outcome.err e
  | Outcome.err e => Outcome.err e
  | Outcome.panicked => Outcome.panicked

/-- Value of a hexadecimal digit character, upper or lower case. -/
def hexVal (c : Char) : Option Nat :=
  if 48 ≤ c.toNat && c.toNat ≤ 57 then some (c.toNat - 48)
  else if 97 ≤ c.toNat && c.toNat ≤ 102 then some (c.toNat - 87)
  else if 65 ≤ c.toNat && c.toNat ≤ 70 then some (c.toNat - 55)
  else none

/-- Parser for four hexadecimal digits, the `XXXX` of a `\uXXXX`
escape. -/
def parseHex4 : List Char → Option (Nat × List Char)
  | h1 :: h2 :: h3 :: h4 :: rest =>
    match hexVal h1, hexVal h2, hexVal h3, hexVal h4 with
    | some a, some b, some c, some d =>
      some (a * 4096 + b * 256 + c * 16 + d, rest)
    | _, _, _, _ => none
  | _ => none

/-- Parser for the digits of a `\u` escape, input positioned after the
`\u`: a high surrogate must be followed by a `\u`-escaped low surrogate
(the pair decodes to one supplementary character), a lone low surrogate
is invalid, and any other value is the decoded character itself. -/
def parseUnicodeEsc (l : List Char) : Option (Char × List Char) :=
  match parseHex4 l with
  | none => none
  | some (n, rest) =>
    if 55296 ≤ n && n ≤ 56319 then
      match rest with
      | bs :: u2 :: rest2 =>
        if bs = '\\' && u2 = 'u' then
          match parseHex4 rest2 with
          | some (n2, rest3) =>
            if 56320 ≤ n2 && n2 ≤ 57343 then
              some (Char.ofNat ((n - 55296) * 1024 + (n2 - 56320) + 65536), rest3)
            else none
          | none => none
        else none
      | _ => none
    else if 56320 ≤ n && n ≤ 57343 then none
    else some (Char.ofNat n, rest)

/-- Parser for one escape sequence of a JSON string literal, input
positioned after the backslash: the decoded character and the remaining
input. -/
def parseEscape : List Char → Option (Char × List Char)
  | [] => none
  | e :: rest =>
    if e = dquote then some (dquote, rest)
    else if e = '\\' then some ('\\', rest)
    else if e = '/' then some ('/', rest)
    else if e = 'b' then some (Char.ofNat 8, rest)
    else if e = 'f' then some (Char.ofNat 12, rest)
    else if e = 'n' then some (Char.ofNat 10, rest)
    else if e = 'r' then some (Char.ofNat 13, rest)
    else if e = 't' then some (Char.ofNat 9, rest)
    else if e = 'u' then parseUnicodeEsc rest
    else none

/-- Parser for the body of a JSON string literal, after the opening
quote: decodes escape sequences and rejects raw control characters, per
the JSON grammar.  Returns the decoded characters and the input after
the closing quote.  The fuel bounds the number of decoded characters;
every decoded character consumes at least one input character, so fuel
equal to the input length always suffices. -/
def parseStrBody : Nat → List Char → Option (List Char × List Char)
  | _, [] => none
  | fuel, c :: rest =>
    if c = dquote then some (([], rest) : List Char × List Char)
    else
      match fuel with
      | 0 => none
      | fuel' + 1 =>
        if c = '\\' then
          match parseEscape rest with
          | some (d, rest') =>
            (parseStrBody fuel' rest').map (fun p => (d :: p.1, p.2))
          | none => none
        else if 32 ≤ c.toNat then
          (parseStrBody fuel' rest).map (fun p => (c :: p.1, p.2))
        else none

/-- Parser for a JSON string literal, opening quote included. -/
def parseStringLit (l : List Char) : Option (String × List Char) :=
  match l with
  | c :: rest =>
    if c = dquote then (parseStrBody rest.length rest).map (fun p => (⟨p.1⟩, p.2))
    else none
  | [] => none

/-- Parser for one `"key":"value"` member of a JSON object of string
values: the key, a colon, the value. -/
def parseMember (chars : List Char) : Option ((String × String) × List Char) :=
  match parseStringLit chars with
  | none => none
  | some (k, rest1) =>
    match rest1 with
    | c :: rest2 =>
      if c = ':' then
        match parseStringLit rest2 with
        | none => none
        | some (v, rest3) => some ((k, v), rest3)
      else none
    | [] => none

/-- Parser for the members of a non-empty JSON object of string values:
a member followed either by a comma and further members or by the
closing brace, which must end the input.  The fuel bounds the number of
members. -/
def parseEntriesLoop : Nat → List Char → Option (List (String × String))
  | 0, _ => none
  | fuel + 1, chars =>
    match parseMember chars with
    | none => none
    | some (kv, rest3) =>
      match rest3 with
      | c2 :: rest4 =>
        if c2 = ',' then (parseEntriesLoop fuel rest4).map (fun tl => kv :: tl)
        else if c2 = rbrace then
          if rest4.isEmpty then some [kv] else none
        else none
      | [] => none

/-- Parser for a complete compact JSON object whose values are strings,
as serde_json would parse the output of the serializer: an opening brace, the
members, a closing brace, and nothing else. -/
def parseJsonObject (s : String) : Option (List (String × String)) :=
  match s.data with
  | c :: rest =>
    if c = lbrace then
      match rest with
      | c2 :: rest2 =>
        if c2 = rbrace then (if rest2.isEmpty then some [] else none)
        else parseEntriesLoop rest.length rest
      | [] => none
    else none
  | [] => none

/-- True of a JSON value that is a string. -/
def isStrJson : Json → Bool
  | Json.str _ => true
  | _ => false

/-- Modelled from the spec: a recognized `source` tag, `"cmd"` or
`"value"`. -/
def sourceTagOk : Json → Bool
  | Json.str s => s = "cmd" || s = "value"
  | _ => false

/-- Modelled from the spec: an optional field of the given shape — it may
be absent or null, and otherwise must satisfy `ok`. -/
def optFieldOk (fields : List (String × Json)) (name : String)
    (ok : Json → Bool) : Bool :=
  match fields.lookup name with
  | none => true
  | some j => if isNullJson j then true else ok j

/-- Modelled from the spec: an array of strings, the declared shape of
the `args` field. -/
def strListShapeOk : Json → Bool
  | Json.arr xs => xs.all isStrJson
  | _ => false

/-- Modelled from the spec: the expected shape of one descriptor — an
object carrying a recognized `source` tag whose optional fields, when
present, have their declared types (a string `exec`, an array of strings
`args`, a string `value`), with no duplicated field. -/
def descriptorOk : Json → Bool
  | Json.obj fields =>
    !dupKnownField fields &&
    (match fields.lookup ("source") with
     | some js => sourceTagOk js
     | none => false) &&
    optFieldOk fields ("exec") isStrJson &&
    optFieldOk fields ("args") strListShapeOk &&
    optFieldOk fields ("value") isStrJson
  | _ => false

/-- Modelled from the spec: the expected shape of the whole descriptor
file — a JSON object each of whose members is a descriptor of the
expected shape. -/
def configShapeOk : Json → Bool
  | Json.obj fields => fields.all (fun kv => descriptorOk kv.2)
  | _ => false

/-- Concatenation of a list of strings. -/
def joinAll : List String → String
  | [] => ""
  | s :: l => s ++ joinAll l

/-- A `Cmd` descriptor for `echo hello`, as in the scenario of the spec. -/
def cfgEcho : ConfigValueSource := ⟨Source.cmd, some ("echo"), some [("hello")], none⟩

/-- A `Value` descriptor with literal value `hi`. -/
def cfgGreeting : ConfigValueSource := ⟨Source.value, none, none, some ("hi")⟩

/-- The descriptor produced by loading an object whose only field is a
`source` of `cmd`: tag `Cmd`, no `exec`. -/
def cfgNoExec : ConfigValueSource := ⟨Source.cmd, none, none, none⟩

/-- Descriptor file content with a `cmd` descriptor that has no `exec`
field. -/
def jNoExec : Json := Json.obj [(("k"), Json.obj [(("source"), Json.str ("cmd"))])]

/-- Descriptor file content that is not an object at all. -/
def jBad : Json := Json.str ("nope")

/-- An operating system in which every spawned process exits 0, prints
`hi` on stdout and `oops` on stderr. -/
def worldStderr : World := fun _ _ => Except.ok ⟨0, [104, 105], [111, 111, 112, 115]⟩

/-- An operating system in which every spawned process exits 0 with empty
stdout and a single `x` on stderr. -/
def worldX : World := fun _ _ => Except.ok ⟨0, [], [120]⟩

/-- An operating system in which no process can be spawned at all. -/
def worldNever : World := fun _ _ => Except.error ("")

/-- An operating system in which every spawned process exits 0, prints
`hello` and a newline on stdout, and nothing on stderr. -/
def worldHello : World := fun _ _ => Except.ok ⟨0, [104, 101, 108, 108, 111, 10], []⟩

/-- An operating system in which every spawned process exits 0 and prints
the invalid UTF-8 byte 0xFF on stdout, with empty stderr. -/
def worldBad : World := fun _ _ => Except.ok ⟨0, [255], []⟩

/-- A mapping whose single key `a` is a `Cmd` descriptor running `e`. -/
def inputAB : List (String × ConfigValueSource) :=
  [(("a"), ⟨Source.cmd, some ("e"), none, none⟩)]

/-- A mapping whose single key `a` is the literal `1`. -/
def inputVal : List (String × ConfigValueSource) :=
  [(("a"), ⟨Source.value, none, none, some ("1")⟩)]

theorem dotenvText_foldl (l : List (String × String)) :
    ∀ acc : String,
      l.foldl (fun a kv => a ++ dotenvLine kv) acc = acc ++ joinAll (l.map dotenvLine) := by
  induction l with
  | nil => intro acc; simp [joinAll, String.append_empty]
  | cons kv tl ih =>
    intro acc
    simp only [List.foldl_cons, List.map_cons, joinAll, ih (acc ++ dotenvLine kv),
      String.append_assoc]

theorem output_dotenv_eq (map : List (String × String)) :
    output_dotenv map = Except.ok (joinAll (map.map dotenvLine)) := by
  simp only [output_dotenv, dotenvText, dotenvText_foldl map "", String.empty_append]

/-- C1: for a resolved `Command` descriptor whose process writes any bytes
to stderr, resolution fails with the `CommandError` message carrying the
captured stderr text.  The exit status and stdout of the process are
universally quantified here and do not appear in the conclusion: the exit
code is never consulted, and the error is raised even when the process
also produced valid stdout. -/
theorem claim_C1 (world : World) (config : ConfigValueSource) (exe : String)
    (out : ProcOutput) (hsrc : config.source = Source.cmd)
    (hexe : config.exec = some exe)
    (hrun : world exe (config.args.getD []) = Except.ok out)
    (hne : out.stderr ≠ []) :
    get_config_value world config =
      Outcome.err ("Error running command: " ++ utf8Lossy out.stderr) := by
  simp only [get_config_value, hsrc, hexe, hrun]
  simp [List.isEmpty_iff, hne]

theorem claim_C1_witness :
    get_config_value worldStderr cfgEcho =
      Outcome.err ("Error running command: " ++ utf8Lossy [111, 111, 112, 115]) :=
  claim_C1 worldStderr cfgEcho ("echo") ⟨0, [104, 105], [111, 111, 112, 115]⟩
    rfl rfl rfl (by decide)

/-- C4: the loader accepts a descriptor whose `source` is `cmd` but which
has no `exec` field, and resolving that descriptor panics (the `unwrap`
on `None`) in every possible operating system, instead of returning any
error: the resolver is not total over what the loader can produce. -/
theorem claim_C4 :
    parse_config jNoExec = Except.ok [(("k"), cfgNoExec)] ∧
    cfgNoExec.source = Source.cmd ∧ cfgNoExec.exec = none ∧
    ∀ world : World, get_config_value world cfgNoExec = Outcome.panicked :=
  ⟨rfl, rfl, rfl, fun _ => rfl⟩

theorem claim_C4_witness :
    get_config_value worldNever cfgNoExec = Outcome.panicked :=
  claim_C4.2.2.2 worldNever

/-- C5: the dotenv output is exactly one `key=value` record, terminated
by a newline, for each entry of the resolved map, concatenated in
iteration order, with the key and value spliced in verbatim — no escaping
or quoting of any character, so this formula also holds when a value
contains `=` or a newline. -/
theorem claim_C5 :
    ∀ (map : List (String × String)) (k v : String),
      output_dotenv map = Except.ok (joinAll (map.map dotenvLine)) ∧
      dotenvLine (k, v) = k ++ "=" ++ v ++ "\n" :=
  fun map _ _ => ⟨output_dotenv_eq map, rfl⟩

/-- C6 counterexample: the dotenv text is not determined by the resolved
key-to-value mapping alone.  The two lists below hold the same mapping
(they are permutations of each other, and the iteration order of a `HashMap` —
randomly seeded per process — can produce either), yet `output_dotenv`
yields different texts for them, so two runs over the same mapping need
not print identical dotenv output. -/
theorem claim_C6_cx :
    List.Perm [(("a"), ("1")), (("b"), ("2"))] [(("b"), ("2")), (("a"), ("1"))] ∧
    output_dotenv [(("a"), ("1")), (("b"), ("2"))] ≠
      output_dotenv [(("b"), ("2")), (("a"), ("1"))] := by
  constructor
  · exact List.Perm.swap (("b"), ("2")) (("a"), ("1")) []
  · simp only [output_dotenv, ne_eq, Except.ok.injEq]
    decide

/-- C6 as amended: the dotenv output is a deterministic function of the
iteration sequence the `HashMap` hands to the serializer, namely the
concatenation of one `key=value` line per entry in that order; for two
runs over the same mapping the iteration sequences are permutations of
each other, so the multiset of emitted lines — though not their order —
is determined by the mapping. -/
theorem claim_C6 (l₁ l₂ : List (String × String)) (h : l₁.Perm l₂) :
    (l₁.map dotenvLine).Perm (l₂.map dotenvLine) ∧
    output_dotenv l₁ = Except.ok (joinAll (l₁.map dotenvLine)) :=
  ⟨h.map dotenvLine, output_dotenv_eq l₁⟩

theorem claim_C6_witness :
    (([(("a"), ("1")), (("b"), ("2"))]).map dotenvLine).Perm
      (([(("b"), ("2")), (("a"), ("1"))]).map dotenvLine) ∧
    output_dotenv [(("a"), ("1")), (("b"), ("2"))] =
      Except.ok (joinAll (([(("a"), ("1")), (("b"), ("2"))]).map dotenvLine)) :=
  claim_C6 _ _ (List.Perm.swap (("b"), ("2")) (("a"), ("1")) [])

/-- C7: every format selector other than `json` — including `dotenv`
itself and unrecognized values — selects the dotenv serializer, which
never fails: the result is `Except.ok` of the dotenv text. -/
theorem claim_C7 (format : String) (map : List (String × String))
    (h : format ≠ "json") :
    formatOutput format map = output_dotenv map ∧
    formatOutput format map = Except.ok (dotenvText map) := by
  have heq : formatOutput format map = output_dotenv map := by
    unfold formatOutput
    rw [if_neg h, ite_self]
  exact ⟨heq, heq⟩

theorem claim_C7_witness :
    formatOutput ("xml") [(("a"), ("1"))] = output_dotenv [(("a"), ("1"))] ∧
    formatOutput ("xml") [(("a"), ("1"))] =
      Except.ok (dotenvText [(("a"), ("1"))]) :=
  claim_C7 ("xml") [(("a"), ("1"))] (by decide)

/-- C9: resolving a `Literal` (`source: value`) descriptor returns its
value field verbatim, or the empty string when the field is absent, and
the result is identical under any two operating systems — the resolver
never consults the world, i.e. no child process is spawned. -/
theorem claim_C9 (w₁ w₂ : World) (config : ConfigValueSource)
    (h : config.source = Source.value) :
    get_config_value w₁ config = Outcome.ok (config.value.getD ("")) ∧
    get_config_value w₁ config = get_config_value w₂ config := by
  constructor <;> simp [get_config_value, h]

theorem claim_C9_witness :
    get_config_value worldNever cfgGreeting =
      Outcome.ok (cfgGreeting.value.getD ("")) ∧
    get_config_value worldNever cfgGreeting =
      get_config_value worldHello cfgGreeting :=
  claim_C9 worldNever worldHello cfgGreeting rfl

/-- C10: for a resolved `Command` descriptor whose process writes nothing
to stderr, resolution returns the captured stdout bytes decoded as UTF-8
text exactly as emitted — trailing newline included, no trimming — and
fails with the encoding error when the bytes are not valid UTF-8. -/
theorem claim_C10 (world : World) (config : ConfigValueSource) (exe : String)
    (out : ProcOutput) (hsrc : config.source = Source.cmd)
    (hexe : config.exec = some exe)
    (hrun : world exe (config.args.getD []) = Except.ok out)
    (hempty : out.stderr = []) :
    (∀ s : String, utf8Decode out.stdout = some s →
        get_config_value world config = Outcome.ok s) ∧
    (utf8Decode out.stdout = none →
        get_config_value world config =
          Outcome.err ("invalid utf-8 sequence in command output")) := by
  constructor
  · intro s hs
    simp [get_config_value, hsrc, hexe, hrun, hempty, hs]
  · intro hs
    simp [get_config_value, hsrc, hexe, hrun, hempty, hs]

theorem claim_C10_witness :
    get_config_value worldHello cfgEcho = Outcome.ok ("hello\n") ∧
    get_config_value worldBad cfgEcho =
      Outcome.err ("invalid utf-8 sequence in command output") :=
  ⟨(claim_C10 worldHello cfgEcho ("echo") ⟨0, [104, 101, 108, 108, 111, 10], []⟩
      rfl rfl rfl rfl).1 ("hello\n") rfl,
   (claim_C10 worldBad cfgEcho ("echo") ⟨0, [255], []⟩
      rfl rfl rfl rfl).2 rfl⟩

theorem resolveLoop_keyNotFound (world : World)
    (input : List (String × ConfigValueSource)) :
    ∀ (pre : List String) (k : String) (post : List String)
      (acc : List (String × String)),
      (∀ k' ∈ pre, ∃ cfg v, List.lookup k' input = some cfg ∧
          get_config_value world cfg = Outcome.ok v) →
      List.lookup k input = none →
      resolveLoop world input (pre ++ k :: post) acc =
        Outcome.err (keyNotFoundMsg k) := by
  intro pre
  induction pre with
  | nil =>
    intro k post acc _ habs
    simp [resolveLoop, habs]
  | cons p pre' ih =>
    intro k post acc hpre habs
    obtain ⟨cfg, v, hcfg, hval⟩ := hpre p (List.mem_cons_self p pre')
    simp only [List.cons_append, resolveLoop, hcfg, hval]
    exact ih k post (hmInsert acc p v)
      (fun k' hk' => hpre k' (List.mem_cons_of_mem p hk')) habs

/-- C2 counterexample: the claim does not hold for every mapping and key
list.  With a mapping sending `a` to a command descriptor running `e`,
and the key list `a,b`, the key `b`
is absent from the mapping, yet when the command for the earlier key `a`
writes `x` to stderr the run fails with the `CommandError` message, not
with `KeyNotFound("b")` — the absent key is never reached. -/
theorem claim_C2_cx :
    ("b") ∈ splitKeys ("a,b") ∧ List.lookup ("b") inputAB = none ∧
    runMain worldX id inputAB ("a,b") ("dotenv") =
      Outcome.err ("Error running command: x") ∧
    runMain worldX id inputAB ("a,b") ("dotenv") ≠
      Outcome.err (keyNotFoundMsg ("b")) :=
  ⟨by decide, by decide, rfl, by decide⟩

/-- C2 as amended: if some requested key (a comma-split segment of the
key list, whitespace untouched, the empty key list yielding the single
empty-string key) is absent from the mapping, and every key requested
before the first absent one resolves successfully, then the run fails
with the `KeyNotFound` message naming that first absent key, and no
output is written to standard output (the error return precedes the
single `print!`). -/
theorem claim_C2 (world : World)
    (iter : List (String × String) → List (String × String))
    (input : List (String × ConfigValueSource)) (key_list format : String)
    (pre : List String) (k : String) (post : List String)
    (hsplit : splitKeys key_list = pre ++ k :: post)
    (hpre : ∀ k' ∈ pre, ∃ cfg v, List.lookup k' input = some cfg ∧
        get_config_value world cfg = Outcome.ok v)
    (habs : List.lookup k input = none) :
    runMain world iter input key_list format = Outcome.err (keyNotFoundMsg k) := by
  simp only [runMain, hsplit,
    resolveLoop_keyNotFound world input pre k post [] hpre habs]

theorem claim_C2_witness :
    runMain worldNever id inputVal ("") ("dotenv") =
      Outcome.err (keyNotFoundMsg ("")) :=
  claim_C2 worldNever id inputVal ("") ("dotenv") [] ("") [] rfl
    (by simp) (by decide)

theorem parseSource_ok_shape {js : Json} {src : Source}
    (h : parseSource js = Except.ok src) : sourceTagOk js = true := by
  cases js <;> simp only [parseSource] at h <;> try exact absurd h (by simp)
  case str s =>
    by_cases h1 : s = "cmd"
    · simp [sourceTagOk, h1]
    · by_cases h2 : s = "value"
      · simp [sourceTagOk, h2]
      · rw [if_neg h1, if_neg h2] at h
        exact absurd h (by simp)

theorem parseStringJson_ok_shape {j : Json} {s : String}
    (h : parseStringJson j = Except.ok s) : isStrJson j = true := by
  cases j <;> simp only [parseStringJson] at h <;>
    first
    | rfl
    | exact absurd h (by simp)

theorem parseStringList_ok_shape :
    ∀ {xs : List Json} {l : List String},
      parseStringList xs = Except.ok l → xs.all isStrJson = true := by
  intro xs
  induction xs with
  | nil => simp
  | cons j tl ih =>
    intro l h
    simp only [parseStringList] at h
    match hj : parseStringJson j, htl : parseStringList tl with
    | Except.ok s, Except.ok rest =>
      simp [List.all_cons, parseStringJson_ok_shape hj, ih htl]
    | Except.error e, _ => rw [hj] at h; exact absurd h (by simp)
    | Except.ok s, Except.error e => rw [hj, htl] at h; exact absurd h (by simp)

theorem parseStringListJson_ok_shape {j : Json} {l : List String}
    (h : parseStringListJson j = Except.ok l) : strListShapeOk j = true := by
  cases j <;> simp only [parseStringListJson] at h <;>
    first
    | exact absurd h (by simp)
    | exact parseStringList_ok_shape h

theorem parseField_ok_shape {α : Type} {fields : List (String × Json)}
    {name : String} {p : Json → Except String α} {q : Json → Bool}
    (hpq : ∀ {j : Json} {a : α}, p j = Except.ok a → q j = true)
    {o : Option α} (h : parseField fields name p = Except.ok o) :
    optFieldOk fields name q = true := by
  unfold parseField at h
  unfold optFieldOk
  match hl : fields.lookup name with
  | none => simp
  | some j =>
    rw [hl] at h
    dsimp only at h ⊢
    by_cases hn : isNullJson j = true
    · simp [hn]
    · rw [if_neg hn] at h
      rw [if_neg hn]
      match hp : p j with
      | Except.ok a => exact hpq hp
      | Except.error e => rw [hp] at h; exact absurd h (by simp)

theorem parseConfigValueSource_ok_shape {v : Json} {c : ConfigValueSource}
    (h : parseConfigValueSource v = Except.ok c) : descriptorOk v = true := by
  cases v <;> simp only [parseConfigValueSource] at h <;>
    try exact absurd h (by simp)
  case obj fields =>
    by_cases hdup : dupKnownField fields = true
    · rw [if_pos hdup] at h
      exact absurd h (by simp)
    · rw [if_neg hdup] at h
      simp only [descriptorOk, hdup, Bool.not_false, Bool.true_and]
      match hl : fields.lookup ("source") with
      | none => rw [hl] at h; exact absurd h (by simp)
      | some js =>
        rw [hl] at h
        dsimp only at h ⊢
        match h1 : parseSource js, h2 : parseField fields ("exec") parseStringJson,
            h3 : parseField fields ("args") parseStringListJson,
            h4 : parseField fields ("value") parseStringJson with
        | Except.ok src, Except.ok e, Except.ok a, Except.ok vv =>
          simp [parseSource_ok_shape h1,
            parseField_ok_shape (fun hx => parseStringJson_ok_shape hx) h2,
            parseField_ok_shape (fun hx => parseStringListJson_ok_shape hx) h3,
            parseField_ok_shape (fun hx => parseStringJson_ok_shape hx) h4]
        | Except.error e, _, _, _ =>
          rw [h1] at h; exact absurd h (by simp)
        | Except.ok src, Except.error e, _, _ =>
          rw [h1, h2] at h; exact absurd h (by simp)
        | Except.ok src, Except.ok _, Except.error e, _ =>
          rw [h1, h2, h3] at h; exact absurd h (by simp)
        | Except.ok src, Except.ok _, Except.ok _, Except.error e =>
          rw [h1, h2, h3, h4] at h; exact absurd h (by simp)

theorem parseConfigEntries_ok_shape :
    ∀ (fields : List (String × Json)) (acc : List (String × ConfigValueSource))
      (m : List (String × ConfigValueSource)),
      parseConfigEntries fields acc = Except.ok m →
      fields.all (fun kv => descriptorOk kv.2) = true := by
  intro fields
  induction fields with
  | nil => simp
  | cons kv tl ih =>
    intro acc m h
    obtain ⟨k, v⟩ := kv
    simp only [parseConfigEntries] at h
    match hv : parseConfigValueSource v with
    | Except.ok c =>
      rw [hv] at h
      simp [List.all_cons, parseConfigValueSource_ok_shape hv, ih _ _ h]
    | Except.error e =>
      rw [hv] at h
      exact absurd h (by simp)

/-- C3 counterexample: the loader does not enforce the tag-appropriate
fields.  A file whose single member `k` is an object carrying only a
`source` field of `cmd` — a `cmd` descriptor with
no `exec` field — loads successfully into a mapping whose descriptor has
`exec = none`, contradicting the claim that such a descriptor does not
load. -/
theorem claim_C3_cx :
    parse_config jNoExec = Except.ok [(("k"), cfgNoExec)] ∧
    cfgNoExec.source = Source.cmd ∧ cfgNoExec.exec = none ∧
    isOkE (parse_config jNoExec) = true :=
  ⟨rfl, rfl, rfl, rfl⟩

/-- C3 as amended: the loader fails whenever the content is not a JSON
object mapping strings to objects that carry a recognized `source` tag
(`cmd` or `value`) and whose optional fields, when present, have their
declared types — but the tag-appropriate fields are not required: in
particular a `cmd` descriptor lacking `exec` loads successfully (see the
counterexample). -/
theorem claim_C3 (j : Json) (h : configShapeOk j = false) :
    isOkE (parse_config j) = false := by
  cases j <;> try rfl
  case obj fields =>
    match hp : parseConfigEntries fields [] with
    | Except.ok m =>
      exfalso
      have hall := parseConfigEntries_ok_shape fields [] m hp
      simp only [configShapeOk] at h
      rw [hall] at h
      exact absurd h (by simp)
    | Except.error e =>
      simp [parse_config, isOkE, hp]

theorem claim_C3_witness : isOkE (parse_config jBad) = false :=
  claim_C3 jBad rfl

theorem escapeChar_length_pos (c : Char) : 1 ≤ (escapeChar c).length := by
  unfold escapeChar
  split_ifs <;> simp

theorem escapeList_length (cs : List Char) : cs.length ≤ (escapeList cs).length := by
  induction cs with
  | nil => simp [escapeList]
  | cons c cs ih =>
    have := escapeChar_length_pos c
    simp only [escapeList, List.length_append, List.length_cons]
    omega

theorem hexVal_hexDigitChar : ∀ n : Nat, n < 16 → hexVal (hexDigitChar n) = some n := by
  decide

theorem parseStrBody_quote (fuel : Nat) (rest : List Char) :
    parseStrBody fuel (dquote :: rest) = some ([], rest) := by
  rw [parseStrBody.eq_def]
  simp

theorem parseStrBody_esc_step (fuel' : Nat) (l : List Char) (d : Char)
    (rest' : List Char) (h : parseEscape l = some (d, rest')) :
    parseStrBody (fuel' + 1) ('\\' :: l) =
      (parseStrBody fuel' rest').map (fun p => (d :: p.1, p.2)) := by
  rw [parseStrBody.eq_def]
  simp +decide [h]

theorem parseStrBody_raw_step (fuel' : Nat) (tail : List Char) (c : Char)
    (h1 : ¬c = dquote) (h2 : ¬c = '\\') (h3 : 32 ≤ c.toNat) :
    parseStrBody (fuel' + 1) (c :: tail) =
      (parseStrBody fuel' tail).map (fun p => (c :: p.1, p.2)) := by
  rw [parseStrBody.eq_def]
  simp [h1, h2, h3]

theorem parseEscape_dquote (tail : List Char) :
    parseEscape (dquote :: tail) = some (dquote, tail) := by
  simp [parseEscape]

theorem parseEscape_bslash (tail : List Char) :
    parseEscape ('\\' :: tail) = some ('\\', tail) := by
  simp +decide [parseEscape]

theorem parseEscape_b (tail : List Char) :
    parseEscape ('b' :: tail) = some (Char.ofNat 8, tail) := by
  simp +decide [parseEscape]

theorem parseEscape_t (tail : List Char) :
    parseEscape ('t' :: tail) = some (Char.ofNat 9, tail) := by
  simp +decide [parseEscape]

theorem parseEscape_n (tail : List Char) :
    parseEscape ('n' :: tail) = some (Char.ofNat 10, tail) := by
  simp +decide [parseEscape]

theorem parseEscape_f (tail : List Char) :
    parseEscape ('f' :: tail) = some (Char.ofNat 12, tail) := by
  simp +decide [parseEscape]

theorem parseEscape_r (tail : List Char) :
    parseEscape ('r' :: tail) = some (Char.ofNat 13, tail) := by
  simp +decide [parseEscape]

theorem parseEscape_u00 (t : Nat) (ht : t < 32) (tail : List Char) :
    parseEscape ('u' :: '0' :: '0' ::
        hexDigitChar (t / 16) :: hexDigitChar (t % 16) :: tail) =
      some (Char.ofNat t, tail) := by
  have h0 : hexVal ('0') = some 0 := by decide
  have h1 : hexVal (hexDigitChar (t / 16)) = some (t / 16) :=
    hexVal_hexDigitChar _ (by omega)
  have h2 : hexVal (hexDigitChar (t % 16)) = some (t % 16) :=
    hexVal_hexDigitChar _ (by omega)
  have hn : 0 * 4096 + 0 * 256 + t / 16 * 16 + t % 16 = t := by omega
  have hn' : t / 16 * 16 + t % 16 = t := by omega
  have ha : ¬(55296 ≤ t) := by omega
  have hb : ¬(56320 ≤ t) := by omega
  simp +decide [parseEscape, parseUnicodeEsc, parseHex4, h0, h1, h2, hn, hn', ha, hb]

theorem parseStrBody_escape :
    ∀ (cs : List Char) (fuel : Nat) (rest : List Char),
      cs.length ≤ fuel →
      parseStrBody fuel (escapeList cs ++ dquote :: rest) = some (cs, rest) := by
  intro cs
  induction cs with
  | nil =>
    intro fuel rest _
    simp only [escapeList, List.nil_append]
    exact parseStrBody_quote fuel rest
  | cons c cs ih =>
    intro fuel rest hlen
    match fuel with
    | 0 => exact absurd hlen (by simp)
    | fuel' + 1 =>
      have hih := ih fuel' rest (by simp only [List.length_cons] at hlen; omega)
      simp only [escapeList, List.append_assoc]
      by_cases q1 : c = dquote
      · subst q1
        rw [show escapeChar dquote = ['\\', dquote] from by decide]
        rw [show (['\\', dquote] : List Char) ++ (escapeList cs ++ dquote :: rest) =
          '\\' :: dquote :: (escapeList cs ++ dquote :: rest) from rfl]
        rw [parseStrBody_esc_step fuel' _ _ _ (parseEscape_dquote _), hih]
        rfl
      · by_cases q2 : c = '\\'
        · subst q2
          rw [show escapeChar ('\\') = ['\\', '\\'] from by decide]
          rw [show (['\\', '\\'] : List Char) ++ (escapeList cs ++ dquote :: rest) =
            '\\' :: '\\' :: (escapeList cs ++ dquote :: rest) from rfl]
          rw [parseStrBody_esc_step fuel' _ _ _ (parseEscape_bslash _), hih]
          rfl
        · by_cases q3 : c.toNat = 8
          · have hc : c = Char.ofNat 8 := by rw [← Char.ofNat_toNat c, q3]
            subst hc
            rw [show escapeChar (Char.ofNat 8) = ['\\', 'b'] from by decide]
            rw [show (['\\', 'b'] : List Char) ++ (escapeList cs ++ dquote :: rest) =
              '\\' :: 'b' :: (escapeList cs ++ dquote :: rest) from rfl]
            rw [parseStrBody_esc_step fuel' _ _ _ (parseEscape_b _), hih]
            rfl
          · by_cases q4 : c.toNat = 9
            · have hc : c = Char.ofNat 9 := by rw [← Char.ofNat_toNat c, q4]
              subst hc
              rw [show escapeChar (Char.ofNat 9) = ['\\', 't'] from by decide]
              rw [show (['\\', 't'] : List Char) ++ (escapeList cs ++ dquote :: rest) =
                '\\' :: 't' :: (escapeList cs ++ dquote :: rest) from rfl]
              rw [parseStrBody_esc_step fuel' _ _ _ (parseEscape_t _), hih]
              rfl
            · by_cases q5 : c.toNat = 10
              · have hc : c = Char.ofNat 10 := by rw [← Char.ofNat_toNat c, q5]
                subst hc
                rw [show escapeChar (Char.ofNat 10) = ['\\', 'n'] from by decide]
                rw [show (['\\', 'n'] : List Char) ++ (escapeList cs ++ dquote :: rest) =
                  '\\' :: 'n' :: (escapeList cs ++ dquote :: rest) from rfl]
                rw [parseStrBody_esc_step fuel' _ _ _ (parseEscape_n _), hih]
                rfl
              · by_cases q6 : c.toNat = 12
                · have hc : c = Char.ofNat 12 := by
                    rw [← Char.ofNat_toNat c, q6]
                  subst hc
                  rw [show escapeChar (Char.ofNat 12) = ['\\', 'f'] from by decide]
                  rw [show (['\\', 'f'] : List Char) ++ (escapeList cs ++ dquote :: rest) =
                    '\\' :: 'f' :: (escapeList cs ++ dquote :: rest) from rfl]
                  rw [parseStrBody_esc_step fuel' _ _ _ (parseEscape_f _), hih]
                  rfl
                · by_cases q7 : c.toNat = 13
                  · have hc : c = Char.ofNat 13 := by
                      rw [← Char.ofNat_toNat c, q7]
                    subst hc
                    rw [show escapeChar (Char.ofNat 13) = ['\\', 'r'] from by decide]
                    rw [show (['\\', 'r'] : List Char) ++ (escapeList cs ++ dquote :: rest) =
                      '\\' :: 'r' :: (escapeList cs ++ dquote :: rest) from rfl]
                    rw [parseStrBody_esc_step fuel' _ _ _ (parseEscape_r _), hih]
                    rfl
                  · by_cases q8 : c.toNat < 32
                    · rw [show escapeChar c = '\\' :: 'u' :: '0' :: '0' ::
                          hexDigitChar (c.toNat / 16) :: hexDigitChar (c.toNat % 16) :: [] from by
                        unfold escapeChar
                        rw [if_neg q1, if_neg q2, if_neg q3, if_neg q4, if_neg q5,
                          if_neg q6, if_neg q7, if_pos q8]]
                      rw [show ('\\' :: 'u' :: '0' :: '0' ::
                          hexDigitChar (c.toNat / 16) :: hexDigitChar (c.toNat % 16) :: []) ++
                          (escapeList cs ++ dquote :: rest) =
                          '\\' :: 'u' :: '0' :: '0' ::
                          hexDigitChar (c.toNat / 16) :: hexDigitChar (c.toNat % 16) ::
                          (escapeList cs ++ dquote :: rest) from rfl]
                      rw [parseStrBody_esc_step fuel' _ _ _ (parseEscape_u00 c.toNat q8 _), hih]
                      rw [Char.ofNat_toNat]
                      rfl
                    · rw [show escapeChar c = [c] from by
                        unfold escapeChar
                        rw [if_neg q1, if_neg q2, if_neg q3, if_neg q4, if_neg q5,
                          if_neg q6, if_neg q7, if_neg q8]]
                      rw [show ([c] : List Char) ++ (escapeList cs ++ dquote :: rest) =
                        c :: (escapeList cs ++ dquote :: rest) from rfl]
                      rw [parseStrBody_raw_step fuel' _ c q1 q2 (by omega), hih]
                      rfl

theorem parseStringLit_quoted (s : String) (rest : List Char) :
    parseStringLit (dquote :: (escapeList s.data ++ dquote :: rest)) =
      some (s, rest) := by
  have hlen : s.data.length ≤ (escapeList s.data ++ dquote :: rest).length := by
    have := escapeList_length s.data
    simp only [List.length_append, List.length_cons]
    omega
  unfold parseStringLit
  dsimp only
  rw [if_pos rfl, parseStrBody_escape s.data _ rest hlen]
  rfl

theorem parseMember_entry (k v : String) (tail : List Char) :
    parseMember (entryChars (k, v) ++ tail) = some ((k, v), tail) := by
  have hshape : entryChars (k, v) ++ tail =
      dquote :: (escapeList k.data ++ dquote ::
        (':' :: dquote :: (escapeList v.data ++ dquote :: tail))) := by
    simp [entryChars, List.append_assoc]
  rw [hshape]
  unfold parseMember
  rw [parseStringLit_quoted k
    (':' :: dquote :: (escapeList v.data ++ dquote :: tail))]
  dsimp only
  rw [if_pos rfl]
  rw [show (dquote :: (escapeList v.data ++ dquote :: tail)) =
    dquote :: (escapeList v.data ++ dquote :: tail) from rfl]
  rw [parseStringLit_quoted v tail]

theorem entriesChars_length_ge :
    ∀ m : List (String × String), m.length ≤ (entriesChars m ++ [rbrace]).length := by
  intro m
  induction m with
  | nil => simp
  | cons kv tl ih =>
    cases tl with
    | nil => simp [entriesChars]
    | cons kv2 tl2 =>
      simp only [entriesChars, List.length_append, List.length_cons] at ih ⊢
      omega

theorem entriesChars_cons_head (kv : String × String) (tl : List (String × String)) :
    ∃ r : List Char, entriesChars (kv :: tl) = dquote :: r := by
  cases tl with
  | nil => exact ⟨_, rfl⟩
  | cons kv2 tl2 => exact ⟨_, rfl⟩

theorem parseEntriesLoop_entries :
    ∀ (m : List (String × String)) (fuel : Nat),
      m ≠ [] → m.length ≤ fuel →
      parseEntriesLoop fuel (entriesChars m ++ [rbrace]) = some m := by
  intro m
  induction m with
  | nil => intro fuel h _; exact absurd rfl h
  | cons kv tl ih =>
    intro fuel _ hlen
    match fuel with
    | 0 => exact absurd hlen (by simp)
    | fuel' + 1 =>
      obtain ⟨k, v⟩ := kv
      cases tl with
      | nil =>
        rw [show entriesChars [(k, v)] = entryChars (k, v) from rfl]
        rw [parseEntriesLoop.eq_def]
        dsimp only
        rw [parseMember_entry k v [rbrace]]
        dsimp only
        rw [if_neg (by decide), if_pos rfl]
        rfl
      | cons kv2 tl2 =>
        rw [show entriesChars ((k, v) :: kv2 :: tl2) =
          entryChars (k, v) ++ ',' :: entriesChars (kv2 :: tl2) from rfl]
        rw [List.append_assoc]
        rw [show (',' :: entriesChars (kv2 :: tl2)) ++ [rbrace] =
          ',' :: (entriesChars (kv2 :: tl2) ++ [rbrace]) from rfl]
        rw [parseEntriesLoop.eq_def]
        dsimp only
        rw [parseMember_entry k v (',' :: (entriesChars (kv2 :: tl2) ++ [rbrace]))]
        dsimp only
        rw [if_pos rfl]
        rw [ih fuel' (by simp) (by simp only [List.length_cons] at hlen ⊢; omega)]
        rfl

/-- C8: round-trip — serializing any resolved value set with the JSON
formatter and parsing the resulting text back as a JSON object yields
exactly the resolved key-to-value pairs: no keys added, missing or
renamed, and no values altered (escaping is inverted exactly). -/
theorem claim_C8 (m : List (String × String)) (s : String)
    (h : output_json m = Except.ok s) : parseJsonObject s = some m := by
  have hs : (⟨jsonChars m⟩ : String) = s := by
    simpa [output_json] using h
  subst hs
  cases m with
  | nil => rfl
  | cons kv tl =>
    obtain ⟨r, hr⟩ := entriesChars_cons_head kv tl
    unfold parseJsonObject
    rw [show (⟨jsonChars (kv :: tl)⟩ : String).data = jsonChars (kv :: tl) from rfl]
    rw [show jsonChars (kv :: tl) =
      lbrace :: (entriesChars (kv :: tl) ++ [rbrace]) from rfl]
    dsimp only
    rw [if_pos rfl]
    rw [hr]
    rw [show (dquote :: r) ++ [rbrace] = dquote :: (r ++ [rbrace]) from rfl]
    dsimp only
    rw [if_neg (by decide)]
    rw [show (dquote :: (r ++ [rbrace])) = (dquote :: r) ++ [rbrace] from rfl]
    rw [← hr]
    exact parseEntriesLoop_entries (kv :: tl) _ (by simp)
      (entriesChars_length_ge (kv :: tl))

theorem claim_C8_witness :
    parseJsonObject (⟨jsonChars [(("a"), ("line\nx")), (("k=2"), ("v\"w\\z"))]⟩) =
      some [(("a"), ("line\nx")), (("k=2"), ("v\"w\\z"))] :=
  claim_C8 _ _ rfl

end GetConfig
